import Mathlib

/-!
Shallow embedding of the indicator-and-crossover engine of `src/main.py`
(`add_composites`, `detect_cross`, `resample_weekly`, and the per-symbol
signal core of `analyze_symbol`), together with theorems settling the
specification claims.  Prices are modelled as rationals; pandas series
become Lean lists indexed positionally, and every columnar pandas
expression of the source becomes one Lean definition of the same name.
-/

/-- NH MTS configuration constants of `src/main.py` (lines 40–48). -/
def FAST_PERIOD : ℕ := 12

/-- Slow EMA span (`SLOW_PERIOD = 26`). -/
def SLOW_PERIOD : ℕ := 26

/-- Rolling stochastic window (`K_WINDOW = 14`). -/
def K_WINDOW : ℕ := 14

/-- %K smoothing span (`K_SMOOTH = 3`). -/
def K_SMOOTH : ℕ := 3

/-- %D smoothing window (`D_SMOOTH = 3`). -/
def D_SMOOTH : ℕ := 3

/-- Overbought threshold (`OB_LINE = 80`). -/
def OB_LINE : ℚ := 80

/-- Oversold threshold (`OS_LINE = 20`). -/
def OS_LINE : ℚ := 20

/-- One OHLCV price bar.  Dates are day numbers counted from a Monday, so
`date % 7 = 4` means Friday (used by the weekly resampler). -/
structure Bar where
  date : ℕ
  open_ : ℚ
  high : ℚ
  low : ℚ
  close : ℚ
  volume : ℚ
deriving Repr, DecidableEq, Inhabited

/-- One row of the indicator output: the underlying bar plus the columns
`CompK`, `CompD`, `Diff` added by `add_composites`. -/
structure Row where
  bar : Bar
  CompK : ℚ
  CompD : ℚ
  Diff : ℚ
deriving Repr, DecidableEq, Inhabited

/-- The four signal kinds returned by `detect_cross`. -/
inductive Signal where
  | BUY
  | BUY_W
  | SELL
  | SELL_W
deriving Repr, DecidableEq

/-- Smoothing factor of `pandas.ewm(span=s, adjust=False)`: `α = 2/(s+1)`. -/
def emaAlpha (span : ℕ) : ℚ := 2 / (span + 1)

/-- Recursive EMA continuation: `y_i = (1-α)·y_{i-1} + α·x_i`. -/
def emaFrom (α : ℚ) : ℚ → List ℚ → List ℚ
  | _, [] => []
  | prev, x :: xs =>
    let y := (1 - α) * prev + α * x
    y :: emaFrom α y xs

/-- `series.ewm(span, adjust=False).mean()`: seeded by the first value. -/
def ewmMean (α : ℚ) : List ℚ → List ℚ
  | [] => []
  | x :: xs => x :: emaFrom α x xs

/-- The rolling window of width `w` ending at index `i`
(`rolling(w, min_periods=1)` looks at elements `i+1-w … i`). -/
def window (w i : ℕ) (xs : List ℚ) : List ℚ := (xs.take (i + 1)).drop (i + 1 - w)

/-- Minimum of a list (0 on the empty list, which never arises below). -/
def listMin : List ℚ → ℚ
  | [] => 0
  | x :: xs => xs.foldl min x

/-- Maximum of a list (0 on the empty list, which never arises below). -/
def listMax : List ℚ → ℚ
  | [] => 0
  | x :: xs => xs.foldl max x

/-- Arithmetic mean of a list (`rolling(...).mean()` on one window). -/
def listMean (xs : List ℚ) : ℚ := xs.sum / xs.length

/-- `pandas.Series.clip(lo, hi)` on one value. -/
def clip (lo hi x : ℚ) : ℚ := max lo (min hi x)

/-- Column `Close` of the frame. -/
def closes (bars : List Bar) : List ℚ := bars.map Bar.close

/-- Column `High` of the frame. -/
def highs (bars : List Bar) : List ℚ := bars.map Bar.high

/-- Column `Low` of the frame. -/
def lows (bars : List Bar) : List ℚ := bars.map Bar.low

/-- `macd_raw = ema_fast - ema_slow` (src/main.py lines 136–138). -/
def macd_raw (fast slow : ℕ) (bars : List Bar) : List ℚ :=
  List.zipWith (fun a b => a - b)
    (ewmMean (emaAlpha fast) (closes bars))
    (ewmMean (emaAlpha slow) (closes bars))

/-- `macd_norm` before optional smoothing: rolling min–max rescaling of the
MACD line into [0,100]; a zero-range window becomes the neutral 50
(`.replace(0, nan)` followed by `.fillna(50)`, lines 140–143). -/
def macd_norm0 (fast slow k_window : ℕ) (bars : List Bar) : List ℚ :=
  (List.range bars.length).map (fun i =>
    let m := macd_raw fast slow bars
    let mn := listMin (window k_window i m)
    let mx := listMax (window k_window i m)
    if mx - mn = 0 then 50 else (m.getD i 0 - mn) / (mx - mn) * 100)

/-- `macd_norm` after the `if k_smooth > 1` EWM smoothing (lines 144–145). -/
def macd_norm (fast slow k_window k_smooth : ℕ) (bars : List Bar) : List ℚ :=
  if 1 < k_smooth then ewmMean (emaAlpha k_smooth) (macd_norm0 fast slow k_window bars)
  else macd_norm0 fast slow k_window bars

/-- `k_raw`: raw stochastic %K with the zero-range window resolved to 50
(lines 147–150). -/
def k_raw (k_window : ℕ) (bars : List Bar) : List ℚ :=
  (List.range bars.length).map (fun i =>
    let mn := listMin (window k_window i (lows bars))
    let mx := listMax (window k_window i (highs bars))
    if mx - mn = 0 then 50 else ((closes bars).getD i 0 - mn) / (mx - mn) * 100)

/-- `slow_k`: EWM-smoothed %K when `k_smooth > 1`, else raw %K (line 151). -/
def slow_k (k_window k_smooth : ℕ) (bars : List Bar) : List ℚ :=
  if 1 < k_smooth then ewmMean (emaAlpha k_smooth) (k_raw k_window bars)
  else k_raw k_window bars

/-- `comp_k = ((macd_norm + slow_k) / 2).clip(0, 100)` (line 153). -/
def comp_k (fast slow k_window k_smooth : ℕ) (bars : List Bar) : List ℚ :=
  (List.range bars.length).map (fun i =>
    clip 0 100 (((macd_norm fast slow k_window k_smooth bars).getD i 0 +
      (slow_k k_window k_smooth bars).getD i 0) / 2))

/-- `comp_d = comp_k.rolling(d_smooth, min_periods=1).mean().clip(0, 100)`
(line 154). -/
def comp_d (fast slow k_window k_smooth d_smooth : ℕ) (bars : List Bar) : List ℚ :=
  (List.range bars.length).map (fun i =>
    clip 0 100 (listMean (window d_smooth i (comp_k fast slow k_window k_smooth bars))))

/-- `add_composites`: returns the input bars with the columns `CompK`,
`CompD` and `Diff = CompK - CompD` attached (lines 128–160). -/
def add_composites (fast slow k_window k_smooth d_smooth : ℕ) (bars : List Bar) : List Row :=
  (List.range bars.length).map (fun i =>
    { bar := bars.getD i default
      CompK := (comp_k fast slow k_window k_smooth bars).getD i 0
      CompD := (comp_d fast slow k_window k_smooth d_smooth bars).getD i 0
      Diff := (comp_k fast slow k_window k_smooth bars).getD i 0 -
        (comp_d fast slow k_window k_smooth d_smooth bars).getD i 0 })

/-- `detect_cross` (lines 163–173): examines the final index pair only and
classifies the golden/dead cross of `Diff` against `OS_LINE`/`OB_LINE`. -/
def detect_cross (rows : List Row) : Option Signal :=
  if rows.length < 2 then none
  else
    let prev := rows.getD (rows.length - 2) default
    let curr := rows.getD (rows.length - 1) default
    if prev.Diff ≤ 0 ∧ 0 < curr.Diff then
      some (if prev.CompK < OS_LINE then Signal.BUY else Signal.BUY_W)
    else if 0 ≤ prev.Diff ∧ curr.Diff < 0 then
      some (if OB_LINE < prev.CompK then Signal.SELL else Signal.SELL_W)
    else none

-- ════════════════ helper lemmas ════════════════

theorem getD_range_map (f : ℕ → ℚ) (n i : ℕ) (h : i < n) :
    ((List.range n).map f).getD i 0 = f i := by
  simp [List.getD_eq_getElem?_getD, List.getElem?_map, List.getElem?_range, h]

theorem getD_append_left (xs : List Row) (p c : Row) :
    (xs ++ [p, c]).getD xs.length default = p := by
  simp [List.getD_eq_getElem?_getD, List.getElem?_append_right (Nat.le_refl _)]

theorem getD_append_right (xs : List Row) (p c : Row) :
    (xs ++ [p, c]).getD (xs.length + 1) default = c := by
  simp [List.getD_eq_getElem?_getD,
    List.getElem?_append_right (Nat.le_succ_of_le (Nat.le_refl _))]

theorem detect_cross_append (xs : List Row) (p c : Row) :
    detect_cross (xs ++ [p, c]) =
      (if p.Diff ≤ 0 ∧ 0 < c.Diff then
        some (if p.CompK < OS_LINE then Signal.BUY else Signal.BUY_W)
      else if 0 ≤ p.Diff ∧ c.Diff < 0 then
        some (if OB_LINE < p.CompK then Signal.SELL else Signal.SELL_W)
      else none) := by
  have hlen : (xs ++ [p, c]).length = xs.length + 2 := by simp
  have h2 : ¬ (xs ++ [p, c]).length < 2 := by omega
  have hprev : (xs ++ [p, c]).length - 2 = xs.length := by omega
  have hcurr : (xs ++ [p, c]).length - 1 = xs.length + 1 := by omega
  rw [detect_cross, if_neg h2, hprev, hcurr, getD_append_left, getD_append_right]

-- ════════════════ C1 ════════════════

/-- C1: on any series of length ≥ 2 (written `xs ++ [p, c]`), `detect_cross`
examines only the final index pair: it returns BUY exactly when
`diffPrev ≤ 0 < diffCurr` and `CompK(t-1) < OS_LINE`, BUY_W when the cross
holds but `CompK(t-1) ≥ OS_LINE`, SELL exactly when `diffPrev ≥ 0 > diffCurr`
and `CompK(t-1) > OB_LINE`, SELL_W when that cross holds but
`CompK(t-1) ≤ OB_LINE`, and no event in every other case. -/
theorem detect_cross_classification (xs : List Row) (p c : Row) :
    detect_cross (xs ++ [p, c]) = detect_cross [p, c] ∧
    (detect_cross (xs ++ [p, c]) = some Signal.BUY ↔
      p.Diff ≤ 0 ∧ 0 < c.Diff ∧ p.CompK < OS_LINE) ∧
    (detect_cross (xs ++ [p, c]) = some Signal.BUY_W ↔
      p.Diff ≤ 0 ∧ 0 < c.Diff ∧ ¬ p.CompK < OS_LINE) ∧
    (detect_cross (xs ++ [p, c]) = some Signal.SELL ↔
      0 ≤ p.Diff ∧ c.Diff < 0 ∧ OB_LINE < p.CompK) ∧
    (detect_cross (xs ++ [p, c]) = some Signal.SELL_W ↔
      0 ≤ p.Diff ∧ c.Diff < 0 ∧ ¬ OB_LINE < p.CompK) ∧
    (detect_cross (xs ++ [p, c]) = none ↔
      ¬ (p.Diff ≤ 0 ∧ 0 < c.Diff) ∧ ¬ (0 ≤ p.Diff ∧ c.Diff < 0)) := by
  have h1 := detect_cross_append xs p c
  have h2 := detect_cross_append [] p c
  rw [List.nil_append] at h2
  rw [h1, h2]
  refine ⟨rfl, ?_, ?_, ?_, ?_, ?_⟩ <;>
    · split_ifs <;> simp_all <;> intros <;> linarith

-- ════════════════ more helper lemmas ════════════════

theorem clip_low (lo hi x : ℚ) : lo ≤ clip lo hi x := le_max_left _ _

theorem clip_high (lo hi x : ℚ) (h : lo ≤ hi) : clip lo hi x ≤ hi :=
  max_le h (min_le_left _ _)

theorem clip_clip (lo hi x : ℚ) (h : lo ≤ hi) :
    clip lo hi (clip lo hi x) = clip lo hi x := by
  have hle : clip lo hi x ≤ hi := clip_high lo hi x h
  have hge : lo ≤ clip lo hi x := clip_low lo hi x
  show max lo (min hi (clip lo hi x)) = clip lo hi x
  rw [min_eq_right hle, max_eq_right hge]

theorem headD_range_map {α : Type} [Inhabited α] (f : ℕ → α) (n : ℕ) (h : 0 < n) :
    ((List.range n).map f).headD default = f 0 := by
  cases n with
  | zero => omega
  | succ n => rw [List.range_succ_eq_map]; rfl

theorem take_one_range_map (f : ℕ → ℚ) (n : ℕ) (h : 0 < n) :
    ((List.range n).map f).take 1 = [f 0] := by
  cases n with
  | zero => omega
  | succ n => rw [List.range_succ_eq_map]; rfl

theorem listMean_singleton (x : ℚ) : listMean [x] = x := by
  simp [listMean]

-- ════════════════ C9 ════════════════

theorem detect_cross_len_lt (rows : List Row) (h : rows.length < 2) :
    detect_cross rows = none := by
  rw [detect_cross, if_pos h]

/-- C9: on any indicator series with fewer than two rows (the empty series
included) `detect_cross` returns no event. -/
theorem detect_cross_short (rows : List Row) (h : rows.length < 2) :
    detect_cross rows = none :=
  detect_cross_len_lt rows h

/-- Witness for C9 at the empty series and at a one-row series. -/
theorem detect_cross_short_witness :
    detect_cross [] = none ∧
      detect_cross [{ bar := default, CompK := 50, CompD := 50, Diff := 0 }] = none :=
  ⟨detect_cross_short [] (by decide), detect_cross_short [_] (by decide)⟩

-- ════════════════ C6 ════════════════

/-- C6: two consecutive exact-zero diffs at the final index pair never
generate an event, even though `diffPrev = 0` satisfies both the `≤ 0` and
`≥ 0` boundary conditions. -/
theorem detect_cross_double_zero (xs : List Row) (p c : Row)
    (hp : p.Diff = 0) (hc : c.Diff = 0) :
    detect_cross (xs ++ [p, c]) = none := by
  rw [detect_cross_append, hp, hc]
  norm_num

/-- Witness for C6 at a concrete two-row flat series. -/
theorem detect_cross_double_zero_witness :
    detect_cross ([] ++ [{ bar := default, CompK := 50, CompD := 50, Diff := 0 },
      { bar := default, CompK := 50, CompD := 50, Diff := 0 }]) = none :=
  detect_cross_double_zero [] _ _ rfl rfl

-- ════════════════ C2 ════════════════

/-- C2: every `CompK` and `CompD` value produced by `add_composites` (the
normalized-mode indicator computation) lies within [0, 100], for any
parameters and any finite input series. -/
theorem add_composites_bounded (fast slow k_window k_smooth d_smooth : ℕ)
    (bars : List Bar) (r : Row)
    (hr : r ∈ add_composites fast slow k_window k_smooth d_smooth bars) :
    0 ≤ r.CompK ∧ r.CompK ≤ 100 ∧ 0 ≤ r.CompD ∧ r.CompD ≤ 100 := by
  rw [add_composites] at hr
  obtain ⟨i, hi, rfl⟩ := List.mem_map.mp hr
  rw [List.mem_range] at hi
  have hk : (comp_k fast slow k_window k_smooth bars).getD i 0 =
      clip 0 100 (((macd_norm fast slow k_window k_smooth bars).getD i 0 +
        (slow_k k_window k_smooth bars).getD i 0) / 2) := by
    rw [comp_k, getD_range_map _ _ _ hi]
  have hd : (comp_d fast slow k_window k_smooth d_smooth bars).getD i 0 =
      clip 0 100 (listMean (window d_smooth i (comp_k fast slow k_window k_smooth bars))) := by
    rw [comp_d, getD_range_map _ _ _ hi]
  refine ⟨?_, ?_, ?_, ?_⟩ <;> simp only [hk, hd]
  · exact clip_low _ _ _
  · exact clip_high _ _ _ (by norm_num)
  · exact clip_low _ _ _
  · exact clip_high _ _ _ (by norm_num)

theorem headD_mem {α : Type} [Inhabited α] (l : List α) (h : l ≠ []) :
    l.headD default ∈ l := by
  cases l with
  | nil => exact absurd rfl h
  | cons a l => exact List.mem_cons_self a l

/-- Witness for C2: the first row computed from a single-bar series lies
within the bounds. -/
theorem add_composites_bounded_witness :
    0 ≤ ((add_composites FAST_PERIOD SLOW_PERIOD K_WINDOW K_SMOOTH D_SMOOTH
        [⟨0, 1, 1, 1, 1, 0⟩]).headD default).CompK ∧
      ((add_composites FAST_PERIOD SLOW_PERIOD K_WINDOW K_SMOOTH D_SMOOTH
        [⟨0, 1, 1, 1, 1, 0⟩]).headD default).CompK ≤ 100 ∧
      0 ≤ ((add_composites FAST_PERIOD SLOW_PERIOD K_WINDOW K_SMOOTH D_SMOOTH
        [⟨0, 1, 1, 1, 1, 0⟩]).headD default).CompD ∧
      ((add_composites FAST_PERIOD SLOW_PERIOD K_WINDOW K_SMOOTH D_SMOOTH
        [⟨0, 1, 1, 1, 1, 0⟩]).headD default).CompD ≤ 100 :=
  add_composites_bounded FAST_PERIOD SLOW_PERIOD K_WINDOW K_SMOOTH D_SMOOTH
    [⟨0, 1, 1, 1, 1, 0⟩] _ (headD_mem _ (by simp [add_composites]))

-- ════════════════ C3 ════════════════

/-- C3: at every index whose rolling high/low range is zero (flat market)
the raw %K equals exactly 50, and a zero rolling min-max range of the MACD
line maps the normalized MACD to 50.  Both columns are total functions of
the input (the zero-range case is resolved by the conditional, never by a
division), so no division-by-zero or NaN can propagate. -/
theorem flat_range_neutral (fast slow k_window : ℕ) (bars : List Bar) (i : ℕ)
    (hi : i < bars.length) :
    (listMax (window k_window i (highs bars)) = listMin (window k_window i (lows bars)) →
      (k_raw k_window bars).getD i 0 = 50) ∧
    (listMax (window k_window i (macd_raw fast slow bars)) =
        listMin (window k_window i (macd_raw fast slow bars)) →
      (macd_norm0 fast slow k_window bars).getD i 0 = 50) := by
  constructor
  · intro h
    rw [k_raw, getD_range_map _ _ _ hi]
    simp [h]
  · intro h
    rw [macd_norm0, getD_range_map _ _ _ hi]
    simp [h]

/-- Witness for C3: a single flat bar (high = low = close = 1) yields
%K = 50 and normalized MACD = 50 at index 0. -/
theorem flat_range_neutral_witness :
    (k_raw K_WINDOW [⟨0, 1, 1, 1, 1, 0⟩]).getD 0 0 = 50 ∧
      (macd_norm0 FAST_PERIOD SLOW_PERIOD K_WINDOW [⟨0, 1, 1, 1, 1, 0⟩]).getD 0 0 = 50 :=
  ⟨(flat_range_neutral FAST_PERIOD SLOW_PERIOD K_WINDOW [⟨0, 1, 1, 1, 1, 0⟩] 0
      (by decide)).1 rfl,
   (flat_range_neutral FAST_PERIOD SLOW_PERIOD K_WINDOW [⟨0, 1, 1, 1, 1, 0⟩] 0
      (by decide)).2 rfl⟩

-- ════════════════ C10 ════════════════

theorem comp_d_first (b : Bar) (bs : List Bar) :
    (comp_d FAST_PERIOD SLOW_PERIOD K_WINDOW K_SMOOTH D_SMOOTH (b :: bs)).getD 0 0 =
      (comp_k FAST_PERIOD SLOW_PERIOD K_WINDOW K_SMOOTH (b :: bs)).getD 0 0 := by
  have hn : 0 < (b :: bs).length := by simp
  have hw : window D_SMOOTH 0 (comp_k FAST_PERIOD SLOW_PERIOD K_WINDOW K_SMOOTH (b :: bs)) =
      [clip 0 100 (((macd_norm FAST_PERIOD SLOW_PERIOD K_WINDOW K_SMOOTH (b :: bs)).getD 0 0 +
        (slow_k K_WINDOW K_SMOOTH (b :: bs)).getD 0 0) / 2)] := by
    rw [window, comp_k, take_one_range_map _ _ hn]
    rfl
  rw [comp_d, getD_range_map _ _ _ hn, hw, listMean_singleton,
    comp_k, getD_range_map _ _ _ hn]
  exact clip_clip _ _ _ (by norm_num)

/-- C10: for every non-empty input series, the first row of the computed
indicator series has `CompD = CompK`, hence `Diff = 0`, so at the first
index pair the previous diff satisfies both the `≤ 0` and the `≥ 0` cross
precondition. -/
theorem add_composites_first_diff (b : Bar) (bs : List Bar) :
    ((add_composites FAST_PERIOD SLOW_PERIOD K_WINDOW K_SMOOTH D_SMOOTH
        (b :: bs)).headD default).CompD =
      ((add_composites FAST_PERIOD SLOW_PERIOD K_WINDOW K_SMOOTH D_SMOOTH
        (b :: bs)).headD default).CompK ∧
    ((add_composites FAST_PERIOD SLOW_PERIOD K_WINDOW K_SMOOTH D_SMOOTH
        (b :: bs)).headD default).Diff = 0 ∧
    ((add_composites FAST_PERIOD SLOW_PERIOD K_WINDOW K_SMOOTH D_SMOOTH
        (b :: bs)).headD default).Diff ≤ 0 ∧
    0 ≤ ((add_composites FAST_PERIOD SLOW_PERIOD K_WINDOW K_SMOOTH D_SMOOTH
        (b :: bs)).headD default).Diff := by
  have hn : 0 < (b :: bs).length := by simp
  rw [add_composites, headD_range_map _ _ hn]
  dsimp only
  rw [comp_d_first]
  simp

-- ════════════════ weekly resampling (lines 176–188) ════════════════

/-- `W-FRI` bucket label: the Friday on or after day `d` (weeks run
Saturday–Friday and are labelled by their Friday). -/
def weekKey (d : ℕ) : ℕ := d + (4 + 7 - d % 7) % 7

/-- Aggregation of one non-empty weekly bucket (the `.agg` dictionary of
lines 181–187): `Open = first`, `High = max`, `Low = min`, `Close = last`,
`Volume = sum`, dated by the bucket label `k`. -/
def aggWeek (k : ℕ) (g : Bar) (gs : List Bar) : Bar where
  date := k
  open_ := g.open_
  high := listMax ((g :: gs).map Bar.high)
  low := listMin ((g :: gs).map Bar.low)
  close := ((g :: gs).getLast (List.cons_ne_nil g gs)).close
  volume := ((g :: gs).map Bar.volume).sum

/-- `resample_weekly`: group bars by their `W-FRI` bucket and aggregate;
buckets with no bars (hence no `Close`) are dropped. -/
def resample_weekly (bars : List Bar) : List Bar :=
  ((bars.map (fun b => weekKey b.date)).dedup).filterMap (fun k =>
    match bars.filter (fun b => weekKey b.date = k) with
    | [] => none
    | g :: gs => some (aggWeek k g gs))

theorem weekKey_ge (d : ℕ) : d ≤ weekKey d := by
  unfold weekKey; omega

theorem weekKey_lt (d : ℕ) : weekKey d < d + 7 := by
  unfold weekKey; omega

theorem weekKey_mod (d : ℕ) : weekKey d % 7 = 4 := by
  unfold weekKey; omega

-- ════════════════ C8 ════════════════

theorem map_getD_range (l : List Bar) :
    (List.range l.length).map (fun i => l.getD i default) = l := by
  induction l with
  | nil => rfl
  | cons a t ih =>
    rw [List.length_cons, List.range_succ_eq_map, List.map_cons, List.map_map]
    congr 1

/-- C8: the indicator computation is a pure function of its input: it is
deterministic (two calls on the same series give the same rows) and it
carries the input bars through unchanged (`df.copy()` plus new columns:
projecting the rows back to their bars recovers the input series). -/
theorem add_composites_pure (fast slow k_window k_smooth d_smooth : ℕ) (bars : List Bar) :
    (add_composites fast slow k_window k_smooth d_smooth bars).map Row.bar = bars ∧
      add_composites fast slow k_window k_smooth d_smooth bars =
        add_composites fast slow k_window k_smooth d_smooth bars := by
  refine ⟨?_, rfl⟩
  rw [add_composites, List.map_map]
  exact map_getD_range bars

-- ════════════════ C4 ════════════════

theorem add_composites_length (fast slow k_window k_smooth d_smooth : ℕ) (bars : List Bar) :
    (add_composites fast slow k_window k_smooth d_smooth bars).length = bars.length := by
  simp [add_composites]

/-- Modelled from the spec: strict mode of the Indicator Engine.  It is
absent from `src/main.py` (the code is the permissive variant: every
rolling/EWM column uses `min_periods=1` and the function is total), so the
strict variant is taken from §4.2 of the spec: signal
`InsufficientDataError` when the series is shorter than
`max(slowSpan, stochWindow)` bars, else return the permissive rows. -/
def computeIndicatorsStrict (bars : List Bar) : Except String (List Row) :=
  if bars.length < max SLOW_PERIOD K_WINDOW then Except.error "InsufficientDataError"
  else Except.ok (add_composites FAST_PERIOD SLOW_PERIOD K_WINDOW K_SMOOTH D_SMOOTH bars)

/-- C4: strict mode fails with `InsufficientDataError` exactly on series
shorter than `max(slowSpan, stochWindow)` bars (so in particular on 5 bars
with `slowSpan = 26`), while the permissive computation of the code never
fails on length alone: it returns one row per input bar for every series. -/
theorem strict_insufficient_data (bars : List Bar) :
    (computeIndicatorsStrict bars = Except.error "InsufficientDataError" ↔
      bars.length < max SLOW_PERIOD K_WINDOW) ∧
    (add_composites FAST_PERIOD SLOW_PERIOD K_WINDOW K_SMOOTH D_SMOOTH bars).length =
      bars.length := by
  refine ⟨⟨fun h => ?_, fun h => ?_⟩, add_composites_length _ _ _ _ _ _⟩
  · by_contra hn
    rw [computeIndicatorsStrict, if_neg hn] at h
    exact absurd h (by simp)
  · rw [computeIndicatorsStrict, if_pos h]

-- ════════════════ C7 ════════════════

/-- Pure per-symbol signal core of `analyze_symbol` (lines 316–325): the
daily signal is computed from the full daily indicator frame, the weekly
signal from the weekly-resampled frame, independently. -/
def analyze_signals (bars : List Bar) : Option Signal × Option Signal :=
  (detect_cross (add_composites FAST_PERIOD SLOW_PERIOD K_WINDOW K_SMOOTH D_SMOOTH bars),
   detect_cross (add_composites FAST_PERIOD SLOW_PERIOD K_WINDOW K_SMOOTH D_SMOOTH
     (resample_weekly bars)))

/-- C7: insufficient weekly history (fewer than two weekly bars) never
aborts the daily timeframe: the weekly result is the absent signal `none`
while the daily result is exactly what the standalone daily computation
produces. -/
theorem analyze_signals_isolated (bars : List Bar)
    (hw : (resample_weekly bars).length < 2) :
    (analyze_signals bars).2 = none ∧
      (analyze_signals bars).1 =
        detect_cross (add_composites FAST_PERIOD SLOW_PERIOD K_WINDOW K_SMOOTH D_SMOOTH bars) := by
  refine ⟨?_, rfl⟩
  exact detect_cross_len_lt _ (by rw [add_composites_length]; exact hw)

-- ════════════════ C5 ════════════════

theorem date_le_getLast (l : List Bar)
    (hp : List.Pairwise (fun a b : Bar => a.date < b.date) l) :
    ∀ x ∈ l, ∀ hne : l ≠ [], x.date ≤ (l.getLast hne).date := by
  induction l with
  | nil => intro x hx; exact absurd hx (List.not_mem_nil x)
  | cons a t ih =>
    intro x hx hne
    cases t with
    | nil =>
      rw [List.mem_singleton] at hx
      subst hx
      exact Nat.le_refl _
    | cons b t2 =>
      rw [List.getLast_cons (List.cons_ne_nil b t2)]
      rcases List.mem_cons.mp hx with rfl | hx2
      · exact Nat.le_of_lt ((List.pairwise_cons.mp hp).1 _
          (List.getLast_mem (List.cons_ne_nil b t2)))
      · exact ih (List.pairwise_cons.mp hp).2 x hx2 (List.cons_ne_nil b t2)

theorem head_date_le (a : Bar) (t : List Bar)
    (hp : List.Pairwise (fun x y : Bar => x.date < y.date) (a :: t)) :
    ∀ x ∈ a :: t, a.date ≤ x.date := by
  intro x hx
  rcases List.mem_cons.mp hx with rfl | hx2
  · exact Nat.le_refl _
  · exact Nat.le_of_lt ((List.pairwise_cons.mp hp).1 x hx2)

/-- C5: on a chronologically sorted daily series, every weekly bar sits on
a Friday label, its bucket holds exactly the days of the week ending that
Friday, its close is the daily close of the last trading day of the week,
its open is the first day's open, its high/low are the max/min over the
week, and its volume is the sum of the week's volumes.  Buckets with no
bars produce no weekly bar (each weekly bar's bucket is non-empty). -/
theorem resample_weekly_correct (bars : List Bar)
    (hs : List.Pairwise (fun a b : Bar => a.date < b.date) bars)
    (w : Bar) (hw : w ∈ resample_weekly bars) :
    w.date % 7 = 4 ∧
    (∀ b ∈ bars, weekKey b.date = w.date → b.date ≤ w.date ∧ w.date < b.date + 7) ∧
    (∃ b, b ∈ bars ∧ weekKey b.date = w.date ∧
      (∀ b2 ∈ bars, weekKey b2.date = w.date → b2.date ≤ b.date) ∧ w.close = b.close) ∧
    (∃ b, b ∈ bars ∧ weekKey b.date = w.date ∧
      (∀ b2 ∈ bars, weekKey b2.date = w.date → b.date ≤ b2.date) ∧ w.open_ = b.open_) ∧
    w.high = listMax ((bars.filter (fun b => weekKey b.date = w.date)).map Bar.high) ∧
    w.low = listMin ((bars.filter (fun b => weekKey b.date = w.date)).map Bar.low) ∧
    w.volume = ((bars.filter (fun b => weekKey b.date = w.date)).map Bar.volume).sum := by
  rw [resample_weekly] at hw
  obtain ⟨k, hk, heq⟩ := List.mem_filterMap.mp hw
  cases hgrp : bars.filter (fun b => weekKey b.date = k) with
  | nil =>
    rw [hgrp] at heq
    exact absurd heq (by simp)
  | cons g gs =>
    rw [hgrp] at heq
    obtain rfl : w = aggWeek k g gs := (Option.some.inj heq).symm
    dsimp only [aggWeek]
    have hmem : ∀ x : Bar,
        x ∈ bars.filter (fun b => weekKey b.date = k) ↔ x ∈ bars ∧ weekKey x.date = k := by
      intro x
      simp [List.mem_filter]
    have hpair : List.Pairwise (fun a b : Bar => a.date < b.date) (g :: gs) := by
      rw [← hgrp]
      exact hs.sublist (List.filter_sublist bars)
    have hg : g ∈ bars ∧ weekKey g.date = k :=
      (hmem g).mp (by rw [hgrp]; exact List.mem_cons_self g gs)
    refine ⟨?_, ?_, ?_, ?_, ?_, ?_, ?_⟩
    · rw [← hg.2]
      exact weekKey_mod _
    · intro b _ hkey
      constructor
      · rw [← hkey]; exact weekKey_ge _
      · rw [← hkey]; exact weekKey_lt _
    · have hglmem : (g :: gs).getLast (List.cons_ne_nil g gs) ∈ g :: gs :=
        List.getLast_mem (List.cons_ne_nil g gs)
      have hglbars : (g :: gs).getLast (List.cons_ne_nil g gs) ∈ bars ∧
          weekKey ((g :: gs).getLast (List.cons_ne_nil g gs)).date = k :=
        (hmem _).mp (by rw [hgrp]; exact hglmem)
      refine ⟨_, hglbars.1, hglbars.2, ?_, rfl⟩
      intro b2 hb2 hkey2
      exact date_le_getLast (g :: gs) hpair b2
        (by rw [← hgrp]; exact (hmem b2).mpr ⟨hb2, hkey2⟩) (List.cons_ne_nil g gs)
    · refine ⟨g, hg.1, hg.2, ?_, rfl⟩
      intro b2 hb2 hkey2
      exact head_date_le g gs hpair b2 (by rw [← hgrp]; exact (hmem b2).mpr ⟨hb2, hkey2⟩)
    · rw [hgrp]
    · rw [hgrp]
    · rw [hgrp]

/-- Witness for C5 at a one-bar series (a Monday bar, bucketed to day 4,
the Friday of its week). -/
theorem resample_weekly_correct_witness :
    ((resample_weekly [⟨0, 10, 12, 9, 11, 100⟩]).headD default).date % 7 = 4 ∧
    (∀ b ∈ [(⟨0, 10, 12, 9, 11, 100⟩ : Bar)],
      weekKey b.date = ((resample_weekly [⟨0, 10, 12, 9, 11, 100⟩]).headD default).date →
      b.date ≤ ((resample_weekly [⟨0, 10, 12, 9, 11, 100⟩]).headD default).date ∧
      ((resample_weekly [⟨0, 10, 12, 9, 11, 100⟩]).headD default).date < b.date + 7) ∧
    (∃ b, b ∈ [(⟨0, 10, 12, 9, 11, 100⟩ : Bar)] ∧
      weekKey b.date = ((resample_weekly [⟨0, 10, 12, 9, 11, 100⟩]).headD default).date ∧
      (∀ b2 ∈ [(⟨0, 10, 12, 9, 11, 100⟩ : Bar)],
        weekKey b2.date = ((resample_weekly [⟨0, 10, 12, 9, 11, 100⟩]).headD default).date →
        b2.date ≤ b.date) ∧
      ((resample_weekly [⟨0, 10, 12, 9, 11, 100⟩]).headD default).close = b.close) ∧
    (∃ b, b ∈ [(⟨0, 10, 12, 9, 11, 100⟩ : Bar)] ∧
      weekKey b.date = ((resample_weekly [⟨0, 10, 12, 9, 11, 100⟩]).headD default).date ∧
      (∀ b2 ∈ [(⟨0, 10, 12, 9, 11, 100⟩ : Bar)],
        weekKey b2.date = ((resample_weekly [⟨0, 10, 12, 9, 11, 100⟩]).headD default).date →
        b.date ≤ b2.date) ∧
      ((resample_weekly [⟨0, 10, 12, 9, 11, 100⟩]).headD default).open_ = b.open_) ∧
    ((resample_weekly [⟨0, 10, 12, 9, 11, 100⟩]).headD default).high =
      listMax (([(⟨0, 10, 12, 9, 11, 100⟩ : Bar)].filter (fun b => weekKey b.date =
        ((resample_weekly [⟨0, 10, 12, 9, 11, 100⟩]).headD default).date)).map Bar.high) ∧
    ((resample_weekly [⟨0, 10, 12, 9, 11, 100⟩]).headD default).low =
      listMin (([(⟨0, 10, 12, 9, 11, 100⟩ : Bar)].filter (fun b => weekKey b.date =
        ((resample_weekly [⟨0, 10, 12, 9, 11, 100⟩]).headD default).date)).map Bar.low) ∧
    ((resample_weekly [⟨0, 10, 12, 9, 11, 100⟩]).headD default).volume =
      (([(⟨0, 10, 12, 9, 11, 100⟩ : Bar)].filter (fun b => weekKey b.date =
        ((resample_weekly [⟨0, 10, 12, 9, 11, 100⟩]).headD default).date)).map Bar.volume).sum :=
  resample_weekly_correct [⟨0, 10, 12, 9, 11, 100⟩] (by simp) _
    (headD_mem _ (by decide))

/-- Witness for C7: a single daily bar gives a single weekly bar, so the
weekly timeframe is insufficient; its signal is absent while the daily
signal is the standalone daily result. -/
theorem analyze_signals_isolated_witness :
    (analyze_signals [⟨0, 10, 12, 9, 11, 100⟩]).2 = none ∧
      (analyze_signals [⟨0, 10, 12, 9, 11, 100⟩]).1 =
        detect_cross (add_composites FAST_PERIOD SLOW_PERIOD K_WINDOW K_SMOOTH D_SMOOTH
          [⟨0, 10, 12, 9, 11, 100⟩]) :=
  analyze_signals_isolated [⟨0, 10, 12, 9, 11, 100⟩] (by decide)
